import Mathlib

/-!
Verification of the folder-map cloud function (`src/main.py`).

The development shallowly embeds the two components of the program:

* `build_folder_path_map` — the paginated folder listing reduced to a
  `FolderMap` (a Python dict embedded as an insertion-ordered association
  list).  Remote listing responses are inputs: a list of
  `Except String ListPage` values, one per issued request, consumed in
  order until a page carries no continuation token.  A provider exception
  is an `Except.error`.
* `upload_map_to_drive` — the search-then-update-or-create publisher over
  an explicit drive state, with the JSON serialization of the map
  (`jsonDumps`) modelled after Python's `json.dumps(map_data, indent=4)`,
  including its ASCII string escaping.
* `main` — the HTTP entry point: try the whole pipeline, catch any raised
  error into a `(status, message)` 500 response.

A small JSON deserializer (`jsonLoads`) models standard JSON reading of
the published text for the round-trip property.
-/

set_option maxHeartbeats 1000000
set_option maxRecDepth 8000

namespace GDriveMap

/-- A folder object as returned by one listing page: the projected fields
`id`, `name`, `parents`.  The `parents` field is optional — the provider
may omit it — mirroring `folder.get('parents', [None])` in the source. -/
structure FolderFile where
  id : String
  name : String
  parents : Option (List String)
deriving Repr, DecidableEq

/-- One response of the paginated list call: the page's folder objects and
the optional continuation token (`nextPageToken`). -/
structure ListPage where
  files : List FolderFile
  nextPageToken : Option String
deriving Repr, DecidableEq

/-- The value stored per folder id: `{'name': ..., 'parent': ...}`. -/
structure FolderEntry where
  name : String
  parent : Option String
deriving Repr, DecidableEq

/-- The in-memory folder map: a Python dict from folder id to entry,
embedded as an insertion-ordered association list. -/
abbrev FolderMap := List (String × FolderEntry)

/-- `folder.get('parents', [None])[0]`: the first parent reference, `none`
when the `parents` field is absent, and an `IndexError` when the field is
present but the list is empty. -/
def getParentId (f : FolderFile) : Except String (Option String) :=
  match f.parents with
  | none => Except.ok none
  | some [] => Except.error "list index out of range"
  | some (p :: _) => Except.ok (some p)

/-- Python dict assignment `d[k] = v`: update in place when the key is
present (keeping its position), append otherwise. -/
def dictInsert (m : FolderMap) (k : String) (v : FolderEntry) : FolderMap :=
  if k ∈ m.map Prod.fst then
    m.map (fun kv => if kv.1 = k then (k, v) else kv)
  else m ++ [(k, v)]

/-- Python dict lookup `d[k]` (first — and, for dicts, only — binding). -/
def mapLookup (m : FolderMap) (k : String) : Option FolderEntry :=
  match m with
  | [] => none
  | kv :: rest => if kv.1 = k then some kv.2 else mapLookup rest k

/-- The inner `for folder in folders` loop of `build_folder_path_map`:
one dict assignment per record, aborting on a raised `IndexError`. -/
def processFolders : FolderMap → List FolderFile → Except String FolderMap
  | m, [] => Except.ok m
  | m, f :: rest =>
    match getParentId f with
    | Except.error e => Except.error e
    | Except.ok p => processFolders (dictInsert m f.id ⟨f.name, p⟩) rest

/-- The `while True` pagination loop: consume one listing response per
iteration, accumulate its records, stop when the page has no
`nextPageToken`.  A response that is an `Except.error` is a provider
exception propagating out of `execute()`. -/
def buildLoop : FolderMap → List (Except String ListPage) → Except String FolderMap
  | _, [] => Except.error "listing returned no response"
  | m, r :: rest =>
    match r with
    | Except.error e => Except.error e
    | Except.ok page =>
      match processFolders m page.files with
      | Except.error e => Except.error e
      | Except.ok next =>
        match page.nextPageToken with
        | none => Except.ok next
        | some _ => buildLoop next rest

/-- `GoogleDriveRPA.build_folder_path_map`, starting from the empty map. -/
def build_folder_path_map (pages : List (Except String ListPage)) :
    Except String FolderMap :=
  buildLoop [] pages

/-- A well-formed response sequence: every page up to the last carries a
continuation token, and the last carries none — i.e. the sequence is
terminated by the first page without a cursor, so the loop consumes all
of it. -/
inductive WFPages : List ListPage → Prop
  | last (p : ListPage) (h : p.nextPageToken = none) : WFPages [p]
  | more (p : ListPage) (rest : List ListPage) (h : p.nextPageToken ≠ none)
      (hr : WFPages rest) : WFPages (p :: rest)

/-! ## JSON serialization, after `json.dumps(map_data, indent=4)` -/

/-- The lowercase hex digit for `n < 16`, as in Python's `'{0:04x}'`
formatting used by `json` for `\uXXXX` escapes. -/
def hexDigit (n : Nat) : Char :=
  if n < 10 then Char.ofNat (48 + n) else Char.ofNat (87 + n)

/-- Four lowercase hex digits of `n < 0x10000`, most significant first. -/
def toHex4 (n : Nat) : List Char :=
  [hexDigit (n / 4096 % 16), hexDigit (n / 256 % 16),
   hexDigit (n / 16 % 16), hexDigit (n % 16)]

/-- Python `json`'s ASCII string escaping (`ensure_ascii=True`, the
default): `"` and `\` and the named control escapes get two-character
escapes, every other character outside `0x20..0x7E` becomes `\uXXXX`
(a surrogate pair for code points above `0xFFFF`), and printable ASCII
passes through. -/
def escapeChar (c : Char) : List Char :=
  if c = '"' then ['\\', '"']
  else if c = '\\' then ['\\', '\\']
  else if c = '\n' then ['\\', 'n']
  else if c = '\r' then ['\\', 'r']
  else if c = '\t' then ['\\', 't']
  else if c = '\x08' then ['\\', 'b']
  else if c = '\x0c' then ['\\', 'f']
  else if 0x20 ≤ c.toNat ∧ c.toNat ≤ 0x7E then [c]
  else if c.toNat < 0x10000 then '\\' :: 'u' :: toHex4 c.toNat
  else
    ('\\' :: 'u' :: toHex4 (0xD800 + (c.toNat - 0x10000) / 0x400)) ++
    ('\\' :: 'u' :: toHex4 (0xDC00 + (c.toNat - 0x10000) % 0x400))

/-- `escapeChar` mapped over a character list. -/
def escapeList : List Char → List Char
  | [] => []
  | c :: cs => escapeChar c ++ escapeList cs

/-- The JSON text of a `parent` value: `null` or a quoted escaped string. -/
def parentChars : Option String → List Char
  | none => "null".data
  | some p => '"' :: (escapeList p.data ++ ['"'])

/-- The JSON text of one top-level `"<id>": {"name": ..., "parent": ...}`
member as `json.dumps` lays it out at `indent=4` (the member sits at
depth 1, its object's members at depth 2). -/
def entryChars (k : String) (e : FolderEntry) : List Char :=
  "    \"".data ++ (escapeList k.data ++ ('"' :: (": \x7b\n        \"name\": \"".data ++
    (escapeList e.name.data ++ ('"' :: (",\n        \"parent\": ".data ++
    (parentChars e.parent ++ "\n    \x7d".data)))))))

/-- Top-level members joined by `,\n` (the indent of the next member is
part of `entryChars`). -/
def joinEntries : List (List Char) → List Char
  | [] => []
  | [x] => x
  | x :: xs => x ++ ',' :: '\n' :: joinEntries xs

/-- `json.dumps(map_data, indent=4)`: `"\x7b\x7d"` for the empty dict,
otherwise the members between `\x7b\n` and `\n\x7d`. -/
def jsonDumps (m : FolderMap) : String :=
  match m with
  | [] => "\x7b\x7d"
  | _ => ⟨"\x7b\n".data ++ joinEntries (m.map fun kv => entryChars kv.1 kv.2) ++ "\n\x7d".data⟩

/-! ## JSON deserialization

A standard JSON reader for the fragment the publisher emits, used to
state the round-trip property.  `scanString` reads a JSON string body
(after its opening quote) up to and including its closing quote,
undoing the escapes of `escapeChar`. -/

/-- The value of a lowercase hex digit character. -/
def hexVal (c : Char) : Nat :=
  if 97 ≤ c.toNat then c.toNat - 87 else c.toNat - 48

/-- The value of four hex digit characters, most significant first. -/
def fromHex4 (a b c d : Char) : Nat :=
  ((hexVal a * 16 + hexVal b) * 16 + hexVal c) * 16 + hexVal d

/-- Prepend a decoded character to a string-scan result. -/
def consScan (c : Char) : Option (List Char × List Char) → Option (List Char × List Char)
  | none => none
  | some (l, r) => some (c :: l, r)

/-- Read a JSON string body: plain characters up to the closing quote,
two-character escapes, `\uXXXX` escapes, and surrogate pairs combined
into one code point.  Returns the decoded characters and the input
remaining after the closing quote. -/
def scanString : List Char → Option (List Char × List Char)
  | [] => none
  | c :: cs =>
    if c = '"' then some ([], cs)
    else if c = '\\' then
      match cs with
      | [] => none
      | e :: cs2 =>
        if e = '"' then consScan '"' (scanString cs2)
        else if e = '\\' then consScan '\\' (scanString cs2)
        else if e = 'n' then consScan '\n' (scanString cs2)
        else if e = 'r' then consScan '\r' (scanString cs2)
        else if e = 't' then consScan '\t' (scanString cs2)
        else if e = 'b' then consScan '\x08' (scanString cs2)
        else if e = 'f' then consScan '\x0c' (scanString cs2)
        else if e = 'u' then
          match cs2 with
          | h1 :: h2 :: h3 :: h4 :: cs3 =>
            if fromHex4 h1 h2 h3 h4 < 0xD800 ∨ 0xE000 ≤ fromHex4 h1 h2 h3 h4 then
              consScan (Char.ofNat (fromHex4 h1 h2 h3 h4)) (scanString cs3)
            else
              match cs3 with
              | b1 :: u1 :: g1 :: g2 :: g3 :: g4 :: cs4 =>
                if b1 = '\\' ∧ u1 = 'u' then
                  consScan (Char.ofNat (0x10000 +
                      (fromHex4 h1 h2 h3 h4 - 0xD800) * 0x400 +
                      (fromHex4 g1 g2 g3 g4 - 0xDC00)))
                    (scanString cs4)
                else none
              | _ => none
          | _ => none
        else none
    else consScan c (scanString cs)

/-- Consume an expected literal prefix. -/
def dropPrefixCh : List Char → List Char → Option (List Char)
  | [], cs => some cs
  | _ :: _, [] => none
  | p :: ps, c :: cs => if c = p then dropPrefixCh ps cs else none

/-- Read one top-level member `"<id>": {"name": ..., "parent": ...}`
laid out as the publisher prints it, returning the binding and the
remaining input. -/
def parseEntry (cs : List Char) : Option ((String × FolderEntry) × List Char) :=
  match dropPrefixCh "    \"".data cs with
  | none => none
  | some cs1 =>
    match scanString cs1 with
    | none => none
    | some (kChars, cs2) =>
      match dropPrefixCh ": \x7b\n        \"name\": \"".data cs2 with
      | none => none
      | some cs3 =>
        match scanString cs3 with
        | none => none
        | some (nChars, cs4) =>
          match dropPrefixCh ",\n        \"parent\": ".data cs4 with
          | none => none
          | some cs5 =>
            match dropPrefixCh "null".data cs5 with
            | some cs6 =>
              match dropPrefixCh "\n    \x7d".data cs6 with
              | none => none
              | some cs7 => some ((⟨kChars⟩, ⟨⟨nChars⟩, none⟩), cs7)
            | none =>
              match cs5 with
              | [] => none
              | q :: cs6 =>
                if q = '"' then
                  match scanString cs6 with
                  | none => none
                  | some (pChars, cs7) =>
                    match dropPrefixCh "\n    \x7d".data cs7 with
                    | none => none
                    | some cs8 => some ((⟨kChars⟩, ⟨⟨nChars⟩, some ⟨pChars⟩⟩), cs8)
                else none

/-- Read the members of a non-empty object: one member, then either a
`,\n` separator and further members, or the closing `\n\x7d` at the end
of the input.  `fuel` bounds the recursion; one unit is spent per
member. -/
def parseEntries : Nat → List Char → Option FolderMap
  | 0, _ => none
  | fuel + 1, cs =>
    match parseEntry cs with
    | none => none
    | some (kv, rest) =>
      match dropPrefixCh ",\n".data rest with
      | some rest2 =>
        match parseEntries fuel rest2 with
        | none => none
        | some l => some (kv :: l)
      | none => if rest = "\n\x7d".data then some [kv] else none

/-- JSON deserialization of a published map text: the empty object, or a
non-empty object of members. -/
def jsonLoads (s : String) : Option FolderMap :=
  if s.data = "\x7b\x7d".data then some []
  else
    match dropPrefixCh "\x7b\n".data s.data with
    | none => none
    | some cs1 => parseEntries cs1.length cs1

/-! ## Round-trip lemmas for the string escaping -/

theorem scan_u_raw (h1 h2 h3 h4 : Char) (cs : List Char) :
    scanString ('\\' :: 'u' :: h1 :: h2 :: h3 :: h4 :: cs) =
      (if fromHex4 h1 h2 h3 h4 < 0xD800 ∨ 0xE000 ≤ fromHex4 h1 h2 h3 h4 then
        consScan (Char.ofNat (fromHex4 h1 h2 h3 h4)) (scanString cs)
      else
        match cs with
        | b1 :: u1 :: g1 :: g2 :: g3 :: g4 :: cs4 =>
          if b1 = '\\' ∧ u1 = 'u' then
            consScan (Char.ofNat (0x10000 + (fromHex4 h1 h2 h3 h4 - 0xD800) * 0x400 +
              (fromHex4 g1 g2 g3 g4 - 0xDC00))) (scanString cs4)
          else none
        | _ => none) := by
  rw [scanString.eq_def]
  simp +decide only [ite_true, ite_false]

theorem hexVal_hexDigit : ∀ k, k < 16 → hexVal (hexDigit k) = k := by decide

theorem fromHex4_toHex4 (n : Nat) (h : n < 65536) :
    fromHex4 (hexDigit (n / 4096 % 16)) (hexDigit (n / 256 % 16))
      (hexDigit (n / 16 % 16)) (hexDigit (n % 16)) = n := by
  unfold fromHex4
  rw [hexVal_hexDigit _ (Nat.mod_lt _ (by norm_num)),
      hexVal_hexDigit _ (Nat.mod_lt _ (by norm_num)),
      hexVal_hexDigit _ (Nat.mod_lt _ (by norm_num)),
      hexVal_hexDigit _ (Nat.mod_lt _ (by norm_num))]
  omega

theorem scan_u (n : Nat) (X : List Char) (hn : n < 0x10000)
    (hval : n < 0xD800 ∨ 0xE000 ≤ n) :
    scanString ('\\' :: 'u' :: (toHex4 n ++ X)) = consScan (Char.ofNat n) (scanString X) := by
  rw [toHex4]
  simp only [List.cons_append, List.nil_append]
  rw [scan_u_raw, fromHex4_toHex4 _ hn, if_pos hval]

theorem scan_surrogate (n : Nat) (X : List Char) (hlow : 0x10000 ≤ n) (hup : n < 0x110000) :
    scanString ('\\' :: 'u' :: (toHex4 (0xD800 + (n - 0x10000) / 0x400) ++
        ('\\' :: 'u' :: (toHex4 (0xDC00 + (n - 0x10000) % 0x400) ++ X)))) =
      consScan (Char.ofNat n) (scanString X) := by
  have hdiv : (n - 0x10000) / 0x400 < 0x400 := by omega
  have hmod : (n - 0x10000) % 0x400 < 0x400 := Nat.mod_lt _ (by norm_num)
  rw [toHex4, toHex4]
  simp only [List.cons_append, List.nil_append]
  rw [scan_u_raw, fromHex4_toHex4 _ (by omega)]
  rw [if_neg (by omega : ¬ (0xD800 + (n - 0x10000) / 0x400 < 0xD800 ∨
      0xE000 ≤ 0xD800 + (n - 0x10000) / 0x400))]
  dsimp only
  rw [if_pos (by decide : ('\\' : Char) = '\\' ∧ ('u' : Char) = 'u')]
  rw [fromHex4_toHex4 _ (by omega)]
  have hre : 0x10000 + (0xD800 + (n - 0x10000) / 0x400 - 0xD800) * 0x400 +
      (0xDC00 + (n - 0x10000) % 0x400 - 0xDC00) = n := by
    have hm := Nat.div_add_mod (n - 0x10000) 0x400
    omega
  rw [hre]

theorem char_valid_cases (c : Char) :
    c.toNat < 0xD800 ∨ (0xE000 ≤ c.toNat ∧ c.toNat < 0x110000) := by
  have h := c.valid
  simpa [UInt32.isValidChar, Nat.isValidChar] using h

theorem scan_quote (X : List Char) : scanString ('"' :: X) = some ([], X) := by
  rw [scanString.eq_def]; simp

theorem scan_plain (c : Char) (X : List Char) (h1 : ¬ c = '"') (h2 : ¬ c = '\\') :
    scanString (c :: X) = consScan c (scanString X) := by
  rw [scanString.eq_def]; simp [h1, h2]

theorem scan_esc_q (X : List Char) : scanString ('\\' :: '"' :: X) = consScan '"' (scanString X) := by
  rw [scanString.eq_def]; simp +decide

theorem scan_esc_bs (X : List Char) : scanString ('\\' :: '\\' :: X) = consScan '\\' (scanString X) := by
  rw [scanString.eq_def]; simp +decide

theorem scan_esc_n (X : List Char) : scanString ('\\' :: 'n' :: X) = consScan '\n' (scanString X) := by
  rw [scanString.eq_def]; simp +decide

theorem scan_esc_r (X : List Char) : scanString ('\\' :: 'r' :: X) = consScan '\r' (scanString X) := by
  rw [scanString.eq_def]; simp +decide

theorem scan_esc_t (X : List Char) : scanString ('\\' :: 't' :: X) = consScan '\t' (scanString X) := by
  rw [scanString.eq_def]; simp +decide

theorem scan_esc_b (X : List Char) : scanString ('\\' :: 'b' :: X) = consScan '\x08' (scanString X) := by
  rw [scanString.eq_def]; simp +decide

theorem scan_esc_f (X : List Char) : scanString ('\\' :: 'f' :: X) = consScan '\x0c' (scanString X) := by
  rw [scanString.eq_def]; simp +decide

theorem scanString_escapeList (l : List Char) (rest : List Char) :
    scanString (escapeList l ++ ('"' :: rest)) = some (l, rest) := by
  induction l generalizing rest with
  | nil => rw [escapeList, List.nil_append, scan_quote]
  | cons c l ih =>
    rw [escapeList, List.append_assoc]
    by_cases h1 : c = '"'
    · subst h1
      rw [escapeChar, if_pos rfl, List.cons_append, List.cons_append, List.nil_append,
          scan_esc_q, ih, consScan]
    · by_cases h2 : c = '\\'
      · subst h2
        rw [escapeChar, if_neg (by decide), if_pos rfl, List.cons_append, List.cons_append,
            List.nil_append, scan_esc_bs, ih, consScan]
      · by_cases h3 : c = '\n'
        · subst h3
          rw [escapeChar, if_neg (by decide), if_neg (by decide), if_pos rfl, List.cons_append,
              List.cons_append, List.nil_append, scan_esc_n, ih, consScan]
        · by_cases h4 : c = '\r'
          · subst h4
            rw [escapeChar, if_neg (by decide), if_neg (by decide), if_neg (by decide),
                if_pos rfl, List.cons_append, List.cons_append, List.nil_append,
                scan_esc_r, ih, consScan]
          · by_cases h5 : c = '\t'
            · subst h5
              rw [escapeChar, if_neg (by decide), if_neg (by decide), if_neg (by decide),
                  if_neg (by decide), if_pos rfl, List.cons_append, List.cons_append,
                  List.nil_append, scan_esc_t, ih, consScan]
            · by_cases h6 : c = '\x08'
              · subst h6
                rw [escapeChar, if_neg (by decide), if_neg (by decide), if_neg (by decide),
                    if_neg (by decide), if_neg (by decide), if_pos rfl, List.cons_append,
                    List.cons_append, List.nil_append, scan_esc_b, ih, consScan]
              · by_cases h7 : c = '\x0c'
                · subst h7
                  rw [escapeChar, if_neg (by decide), if_neg (by decide), if_neg (by decide),
                      if_neg (by decide), if_neg (by decide), if_neg (by decide), if_pos rfl,
                      List.cons_append, List.cons_append, List.nil_append, scan_esc_f, ih,
                      consScan]
                · by_cases h8 : 0x20 ≤ c.toNat ∧ c.toNat ≤ 0x7E
                  · rw [escapeChar, if_neg h1, if_neg h2, if_neg h3, if_neg h4, if_neg h5,
                        if_neg h6, if_neg h7, if_pos h8, List.cons_append, List.nil_append,
                        scan_plain c _ h1 h2, ih, consScan]
                  · by_cases h9 : c.toNat < 0x10000
                    · rw [escapeChar, if_neg h1, if_neg h2, if_neg h3, if_neg h4, if_neg h5,
                          if_neg h6, if_neg h7, if_neg h8, if_pos h9, List.cons_append,
                          List.cons_append]
                      have hval := char_valid_cases c
                      rw [scan_u c.toNat _ h9 (by omega), Char.ofNat_toNat, ih, consScan]
                    · rw [escapeChar, if_neg h1, if_neg h2, if_neg h3, if_neg h4, if_neg h5,
                          if_neg h6, if_neg h7, if_neg h8, if_neg h9]
                      have hval := char_valid_cases c
                      simp only [List.cons_append, List.append_assoc]
                      rw [scan_surrogate c.toNat _ (by omega) (by omega), Char.ofNat_toNat,
                          ih, consScan]

/-! ## Round-trip of the published JSON text -/

theorem dropPrefixCh_append (p cs : List Char) : dropPrefixCh p (p ++ cs) = some cs := by
  induction p with
  | nil => rfl
  | cons a p ih => simp [dropPrefixCh, ih]

theorem mk_data (s : String) : String.mk s.data = s := rfl

theorem parseEntry_entryChars (k : String) (e : FolderEntry) (rest : List Char) :
    parseEntry (entryChars k e ++ rest) = some ((k, e), rest) := by
  cases e with
  | mk nm pr =>
    rw [entryChars]
    cases pr with
    | none =>
      unfold parseEntry
      simp +decide [parentChars, dropPrefixCh, scanString_escapeList, mk_data]
    | some p =>
      unfold parseEntry
      simp +decide [parentChars, dropPrefixCh, scanString_escapeList, mk_data]

theorem dropPrefixCh_comma (R : List Char) :
    dropPrefixCh ",\n".data (',' :: '\n' :: R) = some R := rfl

theorem dropPrefixCh_nl_end : dropPrefixCh ",\n".data "\n\x7d".data = none := by decide

theorem parseEntries_joinEntries (l : FolderMap) :
    ∀ fuel, l ≠ [] → l.length ≤ fuel →
      parseEntries fuel
        (joinEntries (l.map fun kv => entryChars kv.1 kv.2) ++ "\n\x7d".data) = some l := by
  induction l with
  | nil => intro fuel h; exact absurd rfl h
  | cons x xs ih =>
    intro fuel _ hfuel
    match fuel, hfuel with
    | f + 1, hfuel =>
      cases xs with
      | nil =>
        rw [List.map_cons, List.map_nil, joinEntries, parseEntries, parseEntry_entryChars]
        dsimp only
        rw [dropPrefixCh_nl_end]
        dsimp only
        rw [if_pos rfl]
      | cons y ys =>
        rw [List.map_cons, List.map_cons, joinEntries]
        rw [parseEntries]
        rw [List.append_assoc, List.cons_append, List.cons_append]
        rw [parseEntry_entryChars]
        dsimp only
        rw [dropPrefixCh_comma]
        dsimp only
        rw [← List.map_cons (fun kv => entryChars kv.1 kv.2) y ys]
        rw [ih f (by simp) (by simpa using Nat.le_of_succ_le_succ hfuel)]
        simp

theorem entryChars_length (k : String) (e : FolderEntry) : 1 ≤ (entryChars k e).length := by
  rw [entryChars]
  simp

theorem joinEntries_length (l : FolderMap) :
    l.length ≤ (joinEntries (l.map fun kv => entryChars kv.1 kv.2)).length := by
  induction l with
  | nil => simp [joinEntries]
  | cons x xs ih =>
    cases xs with
    | nil =>
      rw [List.map_cons, List.map_nil, joinEntries]
      simpa using entryChars_length x.1 x.2
    | cons y ys =>
      rw [List.map_cons, List.map_cons, joinEntries]
      rw [← List.map_cons (fun kv => entryChars kv.1 kv.2) y ys]
      have h1 := entryChars_length x.1 x.2
      have h2 := ih
      simp only [List.length_append, List.length_cons]
      simp only [List.length_cons] at h2
      omega
      simp

theorem jsonLoads_jsonDumps (m : FolderMap) : jsonLoads (jsonDumps m) = some m := by
  cases m with
  | nil => decide
  | cons x xs =>
    rw [jsonDumps, jsonLoads]
    have hdata : (String.mk ("\x7b\n".data ++
        joinEntries ((x :: xs).map fun kv => entryChars kv.1 kv.2) ++ "\n\x7d".data)).data =
        '\x7b' :: '\n' :: (joinEntries ((x :: xs).map fun kv => entryChars kv.1 kv.2) ++
          "\n\x7d".data) := by
      simp [List.append_assoc]
    rw [hdata]
    rw [if_neg (by intro hco; simp +decide at hco)]
    rw [show ('\x7b' : Char) :: '\n' :: (joinEntries ((x :: xs).map fun kv => entryChars kv.1 kv.2) ++
          "\n\x7d".data) = "\x7b\n".data ++ (joinEntries ((x :: xs).map fun kv => entryChars kv.1 kv.2) ++
          "\n\x7d".data) from rfl]
    rw [dropPrefixCh_append]
    apply parseEntries_joinEntries
    · simp
    · have h1 := joinEntries_length (x :: xs)
      simp only [List.length_append]
      simp only [List.length_cons] at h1 ⊢
      omega
    · simp

/-! ## Drive state and the publisher -/

/-- A file object on the drive, with the fields the publisher touches. -/
structure DriveFile where
  id : String
  name : String
  parents : List String
  trashed : Bool
  content : String
  mimeType : String
deriving Repr, DecidableEq

/-- The drive's file store plus a counter from which ids for newly
created files are drawn. -/
structure DriveState where
  files : List DriveFile
  nextId : Nat
deriving Repr, DecidableEq

/-- The id the provider assigns to the `n`-th created file. -/
def freshId (n : Nat) : String := "file_" ++ toString n

/-- The publisher's existence query
`name = '<filename>' and '<folder_id>' in parents and trashed = false`,
returning matches in drive order. -/
def searchFiles (st : DriveState) (folder_id filename : String) : List DriveFile :=
  st.files.filter fun f =>
    f.name == filename && f.parents.contains folder_id && !f.trashed

/-- `files().update(fileId=fid, media_body=...)`: replace the content of
the file with id `fid`. -/
def replaceContent (files : List DriveFile) (fid content : String) : List DriveFile :=
  files.map fun g => if g.id = fid then { g with content := content } else g

/-- `GoogleDriveRPA.upload_map_to_drive`.  Remote-call failures are
injected as inputs: `searchErr` makes the existence query raise,
`writeErr` makes the update/create call raise, and `omitRespId` models a
write response lacking the `id` field (so `.get('id')` yields `None`).
On success it returns the new drive state and the value of
`response.get('id')`. -/
def upload_map_to_drive (searchErr writeErr : Option String) (omitRespId : Bool)
    (st : DriveState) (folder_id filename : String) (map_data : FolderMap) :
    Except String (DriveState × Option String) :=
  let content_str := jsonDumps map_data
  match searchErr with
  | some e => Except.error e
  | none =>
    let existing_files := searchFiles st folder_id filename
    match writeErr with
    | some e => Except.error e
    | none =>
      match existing_files with
      | f :: _ =>
          Except.ok (⟨replaceContent st.files f.id content_str, st.nextId⟩,
            if omitRespId then none else some f.id)
      | [] =>
          let newFile : DriveFile :=
            ⟨freshId st.nextId, filename, [folder_id], false, content_str, "text/plain"⟩
          Except.ok (⟨st.files ++ [newFile], st.nextId + 1⟩,
            if omitRespId then none else some newFile.id)

/-! ## HTTP entry point -/

/-- The JSON body of the HTTP response.  `file_id = none` means the key
is absent (the error dict carries no `file_id`); `file_id = some v` means
the key is present with value `v`, itself `none` for JSON `null`. -/
structure HttpResponse where
  status : String
  message : String
  file_id : Option (Option String)
deriving Repr, DecidableEq

/-- The `main` entry point: initialize the client, build the map, upload
it, and answer 200 on success; any raised error is caught by the single
top-level `except` and answered as a 500 with the error's message.  The
result carries the response body, the HTTP status code, and the drive
state after the invocation. -/
def main (folder_cfg : String) (initErr : Option String)
    (pages : List (Except String ListPage))
    (searchErr writeErr : Option String) (omitRespId : Bool)
    (st : DriveState) : (HttpResponse × Nat) × DriveState :=
  match initErr with
  | some e => ((⟨"error", e, none⟩, 500), st)
  | none =>
    match build_folder_path_map pages with
    | Except.error e => ((⟨"error", e, none⟩, 500), st)
    | Except.ok m =>
      match upload_map_to_drive searchErr writeErr omitRespId st folder_cfg
          "folder_map.txt" m with
      | Except.error e => ((⟨"error", e, none⟩, 500), st)
      | Except.ok (stOut, fid) =>
        ((⟨"success", "Map updated successfully", some fid⟩, 200), stOut)


/-! ## Lookup and key-set lemmas for the dict build -/

theorem mapLookup_replace (m : FolderMap) (k a : String) (v : FolderEntry) (hne : a ≠ k) :
    mapLookup (m.map fun kv => if kv.1 = k then (k, v) else kv) a = mapLookup m a := by
  induction m with
  | nil => rfl
  | cons kv rest ih =>
    by_cases hk : kv.1 = k
    · rw [List.map_cons, if_pos hk, mapLookup, mapLookup, if_neg (fun h => hne h.symm),
          if_neg (by rw [hk]; exact fun h => hne h.symm), ih]
    · rw [List.map_cons, if_neg hk, mapLookup, mapLookup]
      by_cases ha : kv.1 = a
      · rw [if_pos ha, if_pos ha]
      · rw [if_neg ha, if_neg ha, ih]

theorem mapLookup_replace_self (m : FolderMap) (k : String) (v : FolderEntry)
    (hmem : k ∈ m.map Prod.fst) :
    mapLookup (m.map fun kv => if kv.1 = k then (k, v) else kv) k = some v := by
  induction m with
  | nil => simp at hmem
  | cons kv rest ih =>
    by_cases hk : kv.1 = k
    · rw [List.map_cons, if_pos hk, mapLookup, if_pos rfl]
    · rw [List.map_cons, if_neg hk, mapLookup, if_neg hk]
      rw [List.map_cons] at hmem
      rcases List.mem_cons.mp hmem with h | h
      · exact absurd h.symm hk
      · exact ih h

theorem mapLookup_none (m : FolderMap) (k : String) (h : k ∉ m.map Prod.fst) :
    mapLookup m k = none := by
  induction m with
  | nil => rfl
  | cons kv rest ih =>
    rw [List.map_cons] at h
    have h1 : ¬ kv.1 = k := fun hh => h (hh ▸ List.mem_cons_self _ _)
    have h2 : k ∉ rest.map Prod.fst := fun hh => h (List.mem_cons_of_mem _ hh)
    rw [mapLookup, if_neg h1, ih h2]

theorem mapLookup_append_new (m : FolderMap) (k : String) (v : FolderEntry)
    (h : k ∉ m.map Prod.fst) : mapLookup (m ++ [(k, v)]) k = some v := by
  induction m with
  | nil => simp [mapLookup]
  | cons kv rest ih =>
    rw [List.map_cons] at h
    have h1 : ¬ kv.1 = k := fun hh => h (hh ▸ List.mem_cons_self _ _)
    have h2 : k ∉ rest.map Prod.fst := fun hh => h (List.mem_cons_of_mem _ hh)
    rw [List.cons_append, mapLookup, if_neg h1, ih h2]

theorem mapLookup_append_other (m : FolderMap) (k a : String) (v : FolderEntry)
    (ha : a ≠ k) : mapLookup (m ++ [(k, v)]) a = mapLookup m a := by
  induction m with
  | nil =>
    rw [List.nil_append, mapLookup, mapLookup, if_neg (fun h => ha h.symm)]
    rfl
  | cons kv rest ih =>
    rw [List.cons_append, mapLookup, mapLookup]
    by_cases hh : kv.1 = a
    · rw [if_pos hh, if_pos hh]
    · rw [if_neg hh, if_neg hh, ih]

theorem mapLookup_dictInsert (m : FolderMap) (k a : String) (v : FolderEntry) :
    mapLookup (dictInsert m k v) a = if a = k then some v else mapLookup m a := by
  rw [dictInsert]
  by_cases hmem : k ∈ m.map Prod.fst
  · rw [if_pos hmem]
    by_cases ha : a = k
    · subst ha; rw [if_pos rfl, mapLookup_replace_self m a v hmem]
    · rw [if_neg ha, mapLookup_replace m k a v ha]
  · rw [if_neg hmem]
    by_cases ha : a = k
    · subst ha
      rw [if_pos rfl, mapLookup_append_new m a v hmem]
    · rw [if_neg ha, mapLookup_append_other m k a v ha]


theorem keys_dictInsert (m : FolderMap) (k a : String) (v : FolderEntry) :
    a ∈ (dictInsert m k v).map Prod.fst ↔ a ∈ m.map Prod.fst ∨ a = k := by
  rw [dictInsert]
  by_cases hmem : k ∈ m.map Prod.fst
  · rw [if_pos hmem]
    have hkeys : (List.map (fun kv => if kv.1 = k then (k, v) else kv) m).map Prod.fst =
        m.map Prod.fst := by
      rw [List.map_map]
      refine List.map_congr_left fun kv _ => ?_
      by_cases hk : kv.1 = k
      · simp [hk]
      · simp [hk]
    rw [hkeys]
    constructor
    · exact Or.inl
    · rintro (h | h)
      · exact h
      · exact h ▸ hmem
  · rw [if_neg hmem]
    simp

theorem keysNodup_dictInsert (m : FolderMap) (k : String) (v : FolderEntry)
    (h : (m.map Prod.fst).Nodup) : ((dictInsert m k v).map Prod.fst).Nodup := by
  rw [dictInsert]
  by_cases hmem : k ∈ m.map Prod.fst
  · rw [if_pos hmem]
    have hkeys : (List.map (fun kv => if kv.1 = k then (k, v) else kv) m).map Prod.fst =
        m.map Prod.fst := by
      rw [List.map_map]
      refine List.map_congr_left fun kv _ => ?_
      by_cases hk : kv.1 = k
      · simp [hk]
      · simp [hk]
    rw [hkeys]; exact h
  · rw [if_neg hmem, List.map_append]
    rw [List.nodup_append]
    refine ⟨h, by simp, ?_⟩
    intro a hain hain2
    simp at hain2
    exact hmem (hain2 ▸ hain)

/-- The per-key invariant carried through the record loop: if every record
with id `k` yields a parent satisfying `P`, the entry at `k` keeps
satisfying `P`. -/
theorem processFolders_lookup (P : Option String → Prop) (k : String) :
    ∀ (files : List FolderFile) (m0 m1 : FolderMap),
      processFolders m0 files = Except.ok m1 →
      (∀ f ∈ files, f.id = k → ∃ q, getParentId f = Except.ok q ∧ P q) →
      (∀ e, mapLookup m0 k = some e → P e.parent) →
      ∀ e, mapLookup m1 k = some e → P e.parent := by
  intro files
  induction files with
  | nil =>
    intro m0 m1 hok hrec h0
    rw [processFolders] at hok
    cases hok
    exact h0
  | cons f rest ih =>
    intro m0 m1 hok hrec h0
    rw [processFolders] at hok
    cases hq : getParentId f with
    | error e => rw [hq] at hok; cases hok
    | ok p =>
      rw [hq] at hok
      refine ih _ _ hok (fun g hg => hrec g (List.mem_cons_of_mem _ hg)) ?_
      intro e he
      rw [mapLookup_dictInsert] at he
      by_cases hk : k = f.id
      · rw [if_pos hk] at he
        obtain ⟨q, hq2, hP⟩ := hrec f (List.mem_cons_self _ _) hk.symm
        rw [hq] at hq2
        cases hq2
        cases he
        exact hP
      · rw [if_neg hk] at he
        exact h0 e he

/-- The same invariant through the pagination loop. -/
theorem buildLoop_lookup (P : Option String → Prop) (k : String) :
    ∀ (pages : List (Except String ListPage)) (m0 m1 : FolderMap),
      buildLoop m0 pages = Except.ok m1 →
      (∀ r ∈ pages, ∀ pg, r = Except.ok pg → ∀ f ∈ pg.files, f.id = k →
        ∃ q, getParentId f = Except.ok q ∧ P q) →
      (∀ e, mapLookup m0 k = some e → P e.parent) →
      ∀ e, mapLookup m1 k = some e → P e.parent := by
  intro pages
  induction pages with
  | nil => intro m0 m1 hok; rw [buildLoop.eq_def] at hok; cases hok
  | cons r rest ih =>
    intro m0 m1 hok hrec h0
    rw [buildLoop.eq_def] at hok
    cases r with
    | error e => dsimp only at hok; cases hok
    | ok page =>
      dsimp only at hok
      cases hpf : processFolders m0 page.files with
      | error e => rw [hpf] at hok; cases hok
      | ok next =>
        rw [hpf] at hok
        have hstep := processFolders_lookup P k page.files m0 next hpf
          (fun f hf hfk => hrec _ (List.mem_cons_self _ _) page rfl f hf hfk) h0
        cases htok : page.nextPageToken with
        | none =>
          rw [htok] at hok
          cases hok
          exact hstep
        | some t =>
          rw [htok] at hok
          exact ih _ _ hok (fun r2 hr2 => hrec r2 (List.mem_cons_of_mem _ hr2)) hstep


/-- Successful record loop: when no record has a present-but-empty parent
list, the loop succeeds, the key set grows by exactly the listed ids, and
key nodup-ness is preserved. -/
theorem processFolders_spec :
    ∀ (files : List FolderFile) (m0 : FolderMap),
      (∀ f ∈ files, f.parents ≠ some []) →
      ∃ m1, processFolders m0 files = Except.ok m1 ∧
        (∀ a, a ∈ m1.map Prod.fst ↔ a ∈ m0.map Prod.fst ∨ a ∈ files.map FolderFile.id) ∧
        ((m0.map Prod.fst).Nodup → (m1.map Prod.fst).Nodup) := by
  intro files
  induction files with
  | nil => intro m0 h; exact ⟨m0, rfl, by simp, id⟩
  | cons f rest ih =>
    intro m0 h
    have hp : ∃ q, getParentId f = Except.ok q := by
      cases hf : f.parents with
      | none => exact ⟨none, by simp [getParentId, hf]⟩
      | some l =>
        cases l with
        | nil => exact absurd hf (h f (List.mem_cons_self _ _))
        | cons p t => exact ⟨some p, by simp [getParentId, hf]⟩
    obtain ⟨q, hq⟩ := hp
    obtain ⟨m1, hok, hkeys, hnd⟩ := ih (dictInsert m0 f.id ⟨f.name, q⟩)
      (fun g hg => h g (List.mem_cons_of_mem _ hg))
    refine ⟨m1, ?_, ?_, ?_⟩
    · rw [processFolders, hq]; exact hok
    · intro a
      rw [hkeys a, keys_dictInsert]
      simp only [List.map_cons, List.mem_cons]
      tauto
    · intro hnd0
      exact hnd (keysNodup_dictInsert _ _ _ hnd0)

/-- Successful pagination over a well-formed response sequence: the loop
consumes every page, succeeds, and collects exactly the listed ids. -/
theorem buildLoop_wf :
    ∀ (pages : List ListPage), WFPages pages →
      (∀ p ∈ pages, ∀ f ∈ p.files, f.parents ≠ some []) →
      ∀ m0 : FolderMap,
      ∃ m1, buildLoop m0 (pages.map Except.ok) = Except.ok m1 ∧
        (∀ a, a ∈ m1.map Prod.fst ↔ a ∈ m0.map Prod.fst ∨
          ∃ p ∈ pages, ∃ f ∈ p.files, f.id = a) ∧
        ((m0.map Prod.fst).Nodup → (m1.map Prod.fst).Nodup) := by
  intro pages hwf
  induction hwf with
  | last p hp =>
    intro hrec m0
    obtain ⟨m1, hok, hkeys, hnd⟩ := processFolders_spec p.files m0 (hrec p (by simp))
    refine ⟨m1, ?_, ?_, hnd⟩
    · rw [List.map_cons, List.map_nil, buildLoop.eq_def]
      dsimp only
      rw [hok]
      dsimp only
      rw [hp]
    · intro a
      rw [hkeys a]
      simp only [List.mem_singleton, List.mem_map]
      constructor
      · rintro (h | ⟨f, hf, hfa⟩)
        · exact Or.inl h
        · exact Or.inr ⟨p, rfl, f, hf, hfa⟩
      · rintro (h | ⟨pg, hpg, f, hf, hfa⟩)
        · exact Or.inl h
        · exact Or.inr ⟨f, hpg ▸ hf, hfa⟩
  | more p rest htok hr ih =>
    intro hrec m0
    obtain ⟨mmid, hok1, hkeys1, hnd1⟩ := processFolders_spec p.files m0 (hrec p (by simp))
    obtain ⟨m1, hok2, hkeys2, hnd2⟩ := ih (fun pg hpg => hrec pg (by simp [hpg])) mmid
    refine ⟨m1, ?_, ?_, fun h0 => hnd2 (hnd1 h0)⟩
    · rw [List.map_cons, buildLoop.eq_def]
      dsimp only
      rw [hok1]
      dsimp only
      cases htokval : p.nextPageToken with
      | none => exact absurd htokval htok
      | some t => dsimp only; exact hok2
    · intro a
      rw [hkeys2 a, hkeys1 a]
      simp only [List.mem_cons, List.mem_map]
      constructor
      · rintro ((h | ⟨f, hf, hfa⟩) | ⟨pg, hpg, hx⟩)
        · exact Or.inl h
        · exact Or.inr ⟨p, Or.inl rfl, f, hf, hfa⟩
        · exact Or.inr ⟨pg, Or.inr hpg, hx⟩
      · rintro (h | ⟨pg, hpg | hpg, hx⟩)
        · exact Or.inl (Or.inl h)
        · obtain ⟨f, hf, hfa⟩ := hx
          exact Or.inl (Or.inr ⟨f, hpg ▸ hf, hfa⟩)
        · exact Or.inr ⟨pg, hpg, hx⟩

/-- A provider error raised by a reached listing call propagates out of the
pagination loop unchanged. -/
theorem buildLoop_error :
    ∀ (pre : List ListPage), (∀ p ∈ pre, p.nextPageToken ≠ none) →
      (∀ p ∈ pre, ∀ f ∈ p.files, f.parents ≠ some []) →
      ∀ (m0 : FolderMap) (e : String) (rest : List (Except String ListPage)),
      buildLoop m0 (pre.map Except.ok ++ Except.error e :: rest) = Except.error e := by
  intro pre
  induction pre with
  | nil =>
    intro _ _ m0 e rest
    rw [List.map_nil, List.nil_append, buildLoop.eq_def]
  | cons p pre ih =>
    intro htok hrec m0 e rest
    obtain ⟨mmid, hok, h2, h3⟩ := processFolders_spec p.files m0 (hrec p (by simp))
    rw [List.map_cons, List.cons_append, buildLoop.eq_def]
    dsimp only
    rw [hok]
    dsimp only
    cases htokval : p.nextPageToken with
    | none => exact absurd htokval (htok p (by simp))
    | some t =>
      dsimp only
      exact ih (fun pg h => htok pg (by simp [h])) (fun pg h => hrec pg (by simp [h])) mmid e rest


/-! ## Claims about the folder-map builder -/

/-- C1, as stated, is false on the code: a folder record whose
parent-reference list is present but empty does not yield a `null`
parent — the record loop raises `IndexError: list index out of range`
and the build does not complete. -/
theorem c1_empty_parent_list_raises :
    build_folder_path_map [Except.ok ⟨[⟨"A", "NameA", some []⟩], none⟩] =
      Except.error "list index out of range" := by rfl

/-- C1 (amended): for every folder record returned by the listing whose
parent-reference field is absent, the entry stored for that folder in the
built FolderMap has parent `null`, and the build completes without error
on such a record; a present-but-empty parent-reference list instead
aborts the build with an index error. -/
theorem c1_absent_parents_store_null (pages : List (Except String ListPage))
    (m : FolderMap) (k : String)
    (hok : build_folder_path_map pages = Except.ok m)
    (hk : ∀ r ∈ pages, ∀ pg, r = Except.ok pg → ∀ f ∈ pg.files, f.id = k →
      f.parents = none)
    (e : FolderEntry) (he : mapLookup m k = some e) : e.parent = none := by
  refine buildLoop_lookup (fun q => q = none) k pages [] m hok ?_ ?_ e he
  · intro r hr pg hpg f hf hfk
    exact ⟨none, by simp [getParentId, hk r hr pg hpg f hf hfk], rfl⟩
  · intro e2 he2
    simp [mapLookup] at he2

/-- Witness for C1 (amended) at a concrete one-page listing. -/
theorem c1_absent_parents_store_null_witness :
    build_folder_path_map [Except.ok ⟨[⟨"A", "NameA", none⟩], none⟩] =
      Except.ok [("A", ⟨"NameA", none⟩)] ∧
    (⟨"NameA", none⟩ : FolderEntry).parent = none := by
  refine ⟨by rfl, ?_⟩
  refine c1_absent_parents_store_null [Except.ok ⟨[⟨"A", "NameA", none⟩], none⟩]
    [("A", ⟨"NameA", none⟩)] "A" (by rfl) ?_ ⟨"NameA", none⟩ (by decide)
  intro r hr pg hpg f hf hfk
  simp only [List.mem_singleton] at hr
  subst hr
  cases hpg
  simp only [List.mem_singleton] at hf
  subst hf
  rfl

/-- C2, as stated, is false on the code: a cursor-terminated page
sequence containing a record with a present-but-empty parent-reference
list makes the build raise instead of returning a map keyed by the
listed ids. -/
theorem c2_bad_record_drops_page :
    WFPages [⟨[⟨"X", "NameX", some []⟩], none⟩] ∧
    build_folder_path_map ([⟨[⟨"X", "NameX", some []⟩], none⟩].map Except.ok) =
      Except.error "list index out of range" :=
  ⟨WFPages.last _ rfl, by rfl⟩

/-- C2 (amended): for every sequence of listing pages terminated by the
first page without a continuation cursor, in which no record carries a
present-but-empty parent-reference list, `build_folder_path_map` returns
a map whose key set is exactly the set of folder ids appearing across
all pages, each listed folder appearing exactly once, keyed by id. -/
theorem c2_pagination_collects_all_ids (pages : List ListPage)
    (hwf : WFPages pages)
    (hrec : ∀ p ∈ pages, ∀ f ∈ p.files, f.parents ≠ some []) :
    ∃ m, build_folder_path_map (pages.map Except.ok) = Except.ok m ∧
      (m.map Prod.fst).Nodup ∧
      (∀ a, a ∈ m.map Prod.fst ↔ ∃ p ∈ pages, ∃ f ∈ p.files, f.id = a) := by
  obtain ⟨m, hok, hkeys, hnd⟩ := buildLoop_wf pages hwf hrec []
  refine ⟨m, hok, hnd (by simp), fun a => ?_⟩
  have h := hkeys a
  simpa using h

/-- Witness for C2 (amended) at a concrete two-page listing. -/
theorem c2_pagination_collects_all_ids_witness :
    ∃ m, build_folder_path_map
        ([⟨[⟨"A", "NameA", none⟩], some "tok"⟩,
          ⟨[⟨"B", "NameB", some ["A"]⟩], none⟩].map Except.ok) = Except.ok m ∧
      (m.map Prod.fst).Nodup ∧
      (∀ a, a ∈ m.map Prod.fst ↔
        ∃ p ∈ [(⟨[⟨"A", "NameA", none⟩], some "tok"⟩ : ListPage),
               ⟨[⟨"B", "NameB", some ["A"]⟩], none⟩], ∃ f ∈ p.files, f.id = a) :=
  c2_pagination_collects_all_ids _
    (WFPages.more _ _ (by simp) (WFPages.last _ rfl)) (by decide)

/-- C3: for every folder record whose parent-reference list has two or
more elements, the built FolderMap entry's parent equals the first
element of that list; the remaining references are discarded. -/
theorem c3_first_parent_retained (pages : List (Except String ListPage))
    (m : FolderMap) (k p0 : String)
    (hok : build_folder_path_map pages = Except.ok m)
    (hk : ∀ r ∈ pages, ∀ pg, r = Except.ok pg → ∀ f ∈ pg.files, f.id = k →
      ∃ ps, f.parents = some (p0 :: ps) ∧ ps ≠ [])
    (e : FolderEntry) (he : mapLookup m k = some e) : e.parent = some p0 := by
  refine buildLoop_lookup (fun q => q = some p0) k pages [] m hok ?_ ?_ e he
  · intro r hr pg hpg f hf hfk
    obtain ⟨ps, hps, hne⟩ := hk r hr pg hpg f hf hfk
    exact ⟨some p0, by simp [getParentId, hps], rfl⟩
  · intro e2 he2
    simp [mapLookup] at he2

/-- Witness for C3 at a concrete record with two parent references. -/
theorem c3_first_parent_retained_witness :
    build_folder_path_map [Except.ok ⟨[⟨"B", "NameB", some ["P1", "P2"]⟩], none⟩] =
      Except.ok [("B", ⟨"NameB", some "P1"⟩)] ∧
    (⟨"NameB", some "P1"⟩ : FolderEntry).parent = some "P1" := by
  refine ⟨by rfl, ?_⟩
  refine c3_first_parent_retained [Except.ok ⟨[⟨"B", "NameB", some ["P1", "P2"]⟩], none⟩]
    [("B", ⟨"NameB", some "P1"⟩)] "B" "P1" (by rfl) ?_ ⟨"NameB", some "P1"⟩ (by decide)
  intro r hr pg hpg f hf hfk
  simp only [List.mem_singleton] at hr
  subst hr
  cases hpg
  simp only [List.mem_singleton] at hf
  subst hf
  exact ⟨["P2"], rfl, by simp⟩


/-! ## Publisher lemmas -/

theorem searchFiles_files (files : List DriveFile) (n n2 : Nat) (folder_id filename : String) :
    searchFiles ⟨files, n⟩ folder_id filename = searchFiles ⟨files, n2⟩ folder_id filename := rfl

theorem searchFiles_replaceContent (files : List DriveFile) (n : Nat)
    (fid c folder_id filename : String) :
    searchFiles ⟨replaceContent files fid c, n⟩ folder_id filename =
      (searchFiles ⟨files, n⟩ folder_id filename).map
        (fun g => if g.id = fid then { g with content := c } else g) := by
  rw [searchFiles, searchFiles, replaceContent, List.filter_map]
  congr 1
  apply List.filter_congr
  intro g hg
  by_cases h : g.id = fid
  · simp [Function.comp, h]
  · simp [Function.comp, h]

theorem replaceContent_idem (files : List DriveFile) (fid c : String) :
    replaceContent (replaceContent files fid c) fid c = replaceContent files fid c := by
  simp only [replaceContent, List.map_map]
  apply List.map_congr_left
  intro g hg
  by_cases h : g.id = fid
  · simp [Function.comp, h]
  · simp [Function.comp, h]

theorem replaceContent_of_not_mem (files : List DriveFile) (fid c : String)
    (h : ∀ g ∈ files, g.id ≠ fid) : replaceContent files fid c = files := by
  induction files with
  | nil => rfl
  | cons g rest ih =>
    simp only [replaceContent, List.map_cons] at ih ⊢
    rw [if_neg (h g (List.mem_cons_self _ _)),
        ih (fun g2 hg2 => h g2 (List.mem_cons_of_mem _ hg2))]

theorem searchFiles_append (a b : List DriveFile) (n : Nat) (folder_id filename : String) :
    searchFiles ⟨a ++ b, n⟩ folder_id filename =
      searchFiles ⟨a, n⟩ folder_id filename ++ searchFiles ⟨b, n⟩ folder_id filename := by
  simp [searchFiles, List.filter_append]

theorem searchFiles_matching_singleton (n : Nat) (fid folder_id filename c mt : String) :
    searchFiles ⟨[⟨fid, filename, [folder_id], false, c, mt⟩], n⟩ folder_id filename =
      [⟨fid, filename, [folder_id], false, c, mt⟩] := by
  simp [searchFiles, List.contains]


/-- The two branches of a fault-free publish: update the first search
match in place, or create a fresh file when the search is empty. -/
theorem upload_branches (st : DriveState) (folder_id filename : String)
    (m : FolderMap) :
    (∀ f fs, searchFiles st folder_id filename = f :: fs →
      upload_map_to_drive none none false st folder_id filename m =
        Except.ok (⟨replaceContent st.files f.id (jsonDumps m), st.nextId⟩, some f.id)) ∧
    (searchFiles st folder_id filename = [] →
      upload_map_to_drive none none false st folder_id filename m =
        Except.ok (⟨st.files ++ [⟨freshId st.nextId, filename, [folder_id], false,
          jsonDumps m, "text/plain"⟩], st.nextId + 1⟩, some (freshId st.nextId))) := by
  constructor
  · intro f fs hsearch
    rw [upload_map_to_drive]
    dsimp only
    rw [hsearch]
    simp
  · intro hsearch
    rw [upload_map_to_drive]
    dsimp only
    rw [hsearch]
    simp


/-- C4: on a publish with no remote faults, if the existence search
returns one or more matches, the publisher replaces the content of the
first match and returns that pre-existing file's id; if it returns no
match, the publisher creates a new file with the given name, parent
container and `text/plain` media type, and returns the newly assigned
id. -/
theorem c4_update_first_or_create (st : DriveState) (folder_id filename : String)
    (m : FolderMap) :
    (∀ f fs, searchFiles st folder_id filename = f :: fs →
      upload_map_to_drive none none false st folder_id filename m =
        Except.ok (⟨replaceContent st.files f.id (jsonDumps m), st.nextId⟩, some f.id)) ∧
    (searchFiles st folder_id filename = [] →
      upload_map_to_drive none none false st folder_id filename m =
        Except.ok (⟨st.files ++ [⟨freshId st.nextId, filename, [folder_id], false,
          jsonDumps m, "text/plain"⟩], st.nextId + 1⟩, some (freshId st.nextId))) :=
  upload_branches st folder_id filename m

/-- C5: in the absence of remote faults and concurrent writers,
publishing the same map twice in sequence is idempotent: the first
publish yields a state and a file id; the second publish finds the file
written by the first (the search is non-empty, so the update branch is
taken), returns the same id, leaves the state exactly as the first left
it (no duplicate file), and the file at the head of the search holds the
serialization of the map. -/
theorem c5_second_publish_updates_in_place (st : DriveState) (folder_id filename : String)
    (m : FolderMap) (hfresh : ∀ g ∈ st.files, g.id ≠ freshId st.nextId) :
    ∃ st1 id1,
      upload_map_to_drive none none false st folder_id filename m = Except.ok (st1, some id1) ∧
      upload_map_to_drive none none false st1 folder_id filename m = Except.ok (st1, some id1) ∧
      searchFiles st1 folder_id filename ≠ [] ∧
      (∀ g, (searchFiles st1 folder_id filename).head? = some g →
        g.id = id1 ∧ g.content = jsonDumps m) := by
  cases hs : searchFiles st folder_id filename with
  | nil =>
    refine ⟨⟨st.files ++ [⟨freshId st.nextId, filename, [folder_id], false, jsonDumps m,
        "text/plain"⟩], st.nextId + 1⟩, freshId st.nextId,
      (upload_branches st folder_id filename m).2 hs, ?_, ?_, ?_⟩
    case _ =>
      have hsearch1 : searchFiles ⟨st.files ++ [⟨freshId st.nextId, filename, [folder_id],
          false, jsonDumps m, "text/plain"⟩], st.nextId + 1⟩ folder_id filename =
          [⟨freshId st.nextId, filename, [folder_id], false, jsonDumps m, "text/plain"⟩] := by
        rw [searchFiles_append]
        rw [show searchFiles ⟨st.files, st.nextId + 1⟩ folder_id filename = [] from hs]
        rw [searchFiles_matching_singleton]
        rw [List.nil_append]
      have h2 := (upload_branches ⟨st.files ++ [⟨freshId st.nextId, filename,
          [folder_id], false, jsonDumps m, "text/plain"⟩], st.nextId + 1⟩ folder_id
          filename m).1 _ _ hsearch1
      rw [h2]
      have hrepl : replaceContent (st.files ++ [⟨freshId st.nextId, filename, [folder_id],
          false, jsonDumps m, "text/plain"⟩]) (freshId st.nextId) (jsonDumps m) =
          st.files ++ [⟨freshId st.nextId, filename, [folder_id], false, jsonDumps m,
          "text/plain"⟩] := by
        simp only [replaceContent, List.map_append]
        congr 1
        · have h3 := replaceContent_of_not_mem st.files (freshId st.nextId) (jsonDumps m) hfresh
          simpa [replaceContent] using h3
        · simp
      dsimp only
      rw [hrepl]
    case _ =>
      have hsearch1 : searchFiles ⟨st.files ++ [⟨freshId st.nextId, filename, [folder_id],
          false, jsonDumps m, "text/plain"⟩], st.nextId + 1⟩ folder_id filename =
          [⟨freshId st.nextId, filename, [folder_id], false, jsonDumps m, "text/plain"⟩] := by
        rw [searchFiles_append]
        rw [show searchFiles ⟨st.files, st.nextId + 1⟩ folder_id filename = [] from hs]
        rw [searchFiles_matching_singleton]
        rw [List.nil_append]
      rw [hsearch1]
      simp
    case _ =>
      have hsearch1 : searchFiles ⟨st.files ++ [⟨freshId st.nextId, filename, [folder_id],
          false, jsonDumps m, "text/plain"⟩], st.nextId + 1⟩ folder_id filename =
          [⟨freshId st.nextId, filename, [folder_id], false, jsonDumps m, "text/plain"⟩] := by
        rw [searchFiles_append]
        rw [show searchFiles ⟨st.files, st.nextId + 1⟩ folder_id filename = [] from hs]
        rw [searchFiles_matching_singleton]
        rw [List.nil_append]
      intro g hg
      rw [hsearch1] at hg
      simp only [List.head?_cons, Option.some.injEq] at hg
      subst hg
      exact ⟨rfl, rfl⟩
  | cons f fs =>
    refine ⟨⟨replaceContent st.files f.id (jsonDumps m), st.nextId⟩, f.id,
      (upload_branches st folder_id filename m).1 f fs hs, ?_, ?_, ?_⟩
    case _ =>
      have hsearch1 : searchFiles ⟨replaceContent st.files f.id (jsonDumps m), st.nextId⟩
          folder_id filename =
          { f with content := jsonDumps m } ::
            fs.map (fun g => if g.id = f.id then { g with content := jsonDumps m } else g) := by
        have h2 := searchFiles_replaceContent st.files st.nextId f.id (jsonDumps m)
          folder_id filename
        rw [show searchFiles ⟨st.files, st.nextId⟩ folder_id filename = f :: fs from hs] at h2
        simpa using h2
      have h2 := (upload_branches ⟨replaceContent st.files f.id (jsonDumps m),
          st.nextId⟩ folder_id filename m).1 _ _ hsearch1
      rw [h2]
      dsimp only
      rw [replaceContent_idem]
    case _ =>
      have hsearch1 : searchFiles ⟨replaceContent st.files f.id (jsonDumps m), st.nextId⟩
          folder_id filename =
          { f with content := jsonDumps m } ::
            fs.map (fun g => if g.id = f.id then { g with content := jsonDumps m } else g) := by
        have h2 := searchFiles_replaceContent st.files st.nextId f.id (jsonDumps m)
          folder_id filename
        rw [show searchFiles ⟨st.files, st.nextId⟩ folder_id filename = f :: fs from hs] at h2
        simpa using h2
      rw [hsearch1]
      simp
    case _ =>
      have hsearch1 : searchFiles ⟨replaceContent st.files f.id (jsonDumps m), st.nextId⟩
          folder_id filename =
          { f with content := jsonDumps m } ::
            fs.map (fun g => if g.id = f.id then { g with content := jsonDumps m } else g) := by
        have h2 := searchFiles_replaceContent st.files st.nextId f.id (jsonDumps m)
          folder_id filename
        rw [show searchFiles ⟨st.files, st.nextId⟩ folder_id filename = f :: fs from hs] at h2
        simpa using h2
      intro g hg
      rw [hsearch1] at hg
      simp only [List.head?_cons, Option.some.injEq] at hg
      subst hg
      exact ⟨rfl, rfl⟩


/-- Witness for C4 at one concrete state per branch: a drive holding one
matching file (update branch) and an empty drive (create branch). -/
theorem c4_update_first_or_create_witness :
    upload_map_to_drive none none false
        ⟨[⟨"fid1", "folder_map.txt", ["dest"], false, "old", "text/plain"⟩], 5⟩
        "dest" "folder_map.txt" [] =
      Except.ok (⟨replaceContent [⟨"fid1", "folder_map.txt", ["dest"], false, "old",
        "text/plain"⟩] "fid1" (jsonDumps []), 5⟩, some "fid1") ∧
    upload_map_to_drive none none false ⟨[], 0⟩ "dest" "folder_map.txt" [] =
      Except.ok (⟨[] ++ [⟨freshId 0, "folder_map.txt", ["dest"], false, jsonDumps [],
        "text/plain"⟩], 0 + 1⟩, some (freshId 0)) :=
  ⟨(c4_update_first_or_create ⟨[⟨"fid1", "folder_map.txt", ["dest"], false, "old",
      "text/plain"⟩], 5⟩ "dest" "folder_map.txt" []).1
      ⟨"fid1", "folder_map.txt", ["dest"], false, "old", "text/plain"⟩ [] rfl,
   (c4_update_first_or_create ⟨[], 0⟩ "dest" "folder_map.txt" []).2 rfl⟩

/-- Witness for C5 from an empty drive with one mapped folder. -/
theorem c5_second_publish_updates_in_place_witness :
    ∃ st1 id1,
      upload_map_to_drive none none false ⟨[], 0⟩ "dest" "folder_map.txt"
        [("A", ⟨"NameA", none⟩)] = Except.ok (st1, some id1) ∧
      upload_map_to_drive none none false st1 "dest" "folder_map.txt"
        [("A", ⟨"NameA", none⟩)] = Except.ok (st1, some id1) ∧
      searchFiles st1 "dest" "folder_map.txt" ≠ [] ∧
      (∀ g, (searchFiles st1 "dest" "folder_map.txt").head? = some g →
        g.id = id1 ∧ g.content = jsonDumps [("A", ⟨"NameA", none⟩)]) :=
  c5_second_publish_updates_in_place ⟨[], 0⟩ "dest" "folder_map.txt"
    [("A", ⟨"NameA", none⟩)] (by simp)

/-! ## Claims about the HTTP entry point -/

/-- C6: a provider error raised by a reached paginated listing call makes
the invocation answer HTTP 500 with that error's message; no map is
returned and the drive state is untouched — no create or update call is
issued. -/
theorem c6_listing_error_returns_500 (folder_cfg : String) (pre : List ListPage)
    (e : String) (rest : List (Except String ListPage)) (searchErr writeErr : Option String)
    (omitRespId : Bool) (st : DriveState)
    (htok : ∀ p ∈ pre, p.nextPageToken ≠ none)
    (hrec : ∀ p ∈ pre, ∀ f ∈ p.files, f.parents ≠ some []) :
    main folder_cfg none (pre.map Except.ok ++ Except.error e :: rest)
      searchErr writeErr omitRespId st = ((⟨"error", e, none⟩, 500), st) := by
  have hb : build_folder_path_map (pre.map Except.ok ++ Except.error e :: rest) =
      Except.error e := buildLoop_error pre htok hrec [] e rest
  rw [main]
  rw [hb]

/-- Witness for C6: one token-carrying page is consumed, then the second
listing call raises. -/
theorem c6_listing_error_returns_500_witness :
    main "dest" none ([⟨[⟨"A", "NameA", none⟩], some "tok"⟩].map Except.ok ++
        Except.error "HttpError 503" :: []) none none false ⟨[], 0⟩ =
      ((⟨"error", "HttpError 503", none⟩, 500), ⟨[], 0⟩) :=
  c6_listing_error_returns_500 "dest" [⟨[⟨"A", "NameA", none⟩], some "tok"⟩]
    "HttpError 503" [] none none false ⟨[], 0⟩ (by simp) (by decide)

/-- C7: every invocation answers either HTTP 200 with a body of status
`success`, a message, and a present `file_id` key, or HTTP 500 with a
body of status `error`, a message, and no `file_id` key; no other
response shape or status code occurs. -/
theorem c7_response_is_200_or_500 (folder_cfg : String) (initErr : Option String)
    (pages : List (Except String ListPage)) (searchErr writeErr : Option String)
    (omitRespId : Bool) (st : DriveState) :
    (((main folder_cfg initErr pages searchErr writeErr omitRespId st).1.2 = 200 ∧
      (main folder_cfg initErr pages searchErr writeErr omitRespId st).1.1.status =
        "success" ∧
      ∃ v, (main folder_cfg initErr pages searchErr writeErr omitRespId st).1.1.file_id =
        some v) ∨
     ((main folder_cfg initErr pages searchErr writeErr omitRespId st).1.2 = 500 ∧
      (main folder_cfg initErr pages searchErr writeErr omitRespId st).1.1.status =
        "error" ∧
      (main folder_cfg initErr pages searchErr writeErr omitRespId st).1.1.file_id =
        none)) := by
  rw [main.eq_def]
  cases initErr with
  | some e => right; exact ⟨rfl, rfl, rfl⟩
  | none =>
    dsimp only
    cases hb : build_folder_path_map pages with
    | error e => right; exact ⟨rfl, rfl, rfl⟩
    | ok m =>
      dsimp only
      cases hu : upload_map_to_drive searchErr writeErr omitRespId st folder_cfg
          "folder_map.txt" m with
      | error e => right; exact ⟨rfl, rfl, rfl⟩
      | ok out =>
        dsimp only
        left
        exact ⟨rfl, rfl, out.2, rfl⟩

/-- C10: when the write call succeeds but its response carries no `id`
field, the entry point still answers 200 with status `success` and a
`file_id` key holding null — the success path never checks that an id
came back. -/
theorem c10_success_with_null_file_id (folder_cfg : String)
    (pages : List (Except String ListPage)) (st : DriveState) (m : FolderMap)
    (hok : build_folder_path_map pages = Except.ok m) :
    ∃ stF, main folder_cfg none pages none none true st =
      ((⟨"success", "Map updated successfully", some none⟩, 200), stF) := by
  rw [main]
  rw [hok]
  dsimp only
  rw [upload_map_to_drive]
  dsimp only
  cases hs : searchFiles st folder_cfg "folder_map.txt" with
  | nil => exact ⟨_, rfl⟩
  | cons f fs => exact ⟨_, rfl⟩

/-- Witness for C10 on a one-page empty listing. -/
theorem c10_success_with_null_file_id_witness :
    ∃ stF, main "dest" none [Except.ok ⟨[], none⟩] none none true ⟨[], 0⟩ =
      ((⟨"success", "Map updated successfully", some none⟩, 200), stF) :=
  c10_success_with_null_file_id "dest" [Except.ok ⟨[], none⟩] ⟨[], 0⟩ [] (by rfl)

/-- C8: on an empty drive (one listing page with no folders and no
cursor) and no existing file of the target name, the published content is
the two-character text `\x7b\x7d` and a new file is created by that first
call. -/
theorem c8_empty_drive_publishes_empty_object (folder_cfg : String) (st : DriveState)
    (hempty : searchFiles st folder_cfg "folder_map.txt" = []) :
    jsonDumps [] = "\x7b\x7d" ∧
    main folder_cfg none [Except.ok ⟨[], none⟩] none none false st =
      ((⟨"success", "Map updated successfully", some (some (freshId st.nextId))⟩, 200),
       ⟨st.files ++ [⟨freshId st.nextId, "folder_map.txt", [folder_cfg], false,
         "\x7b\x7d", "text/plain"⟩], st.nextId + 1⟩) := by
  refine ⟨rfl, ?_⟩
  rw [main]
  rw [show build_folder_path_map [Except.ok ⟨[], none⟩] = Except.ok [] from rfl]
  dsimp only
  rw [upload_map_to_drive]
  dsimp only
  rw [hempty]
  rfl

/-- Witness for C8 on a fully empty drive. -/
theorem c8_empty_drive_publishes_empty_object_witness :
    jsonDumps [] = "\x7b\x7d" ∧
    main "dest" none [Except.ok ⟨[], none⟩] none none false ⟨[], 0⟩ =
      ((⟨"success", "Map updated successfully", some (some (freshId 0))⟩, 200),
       ⟨[] ++ [⟨freshId 0, "folder_map.txt", ["dest"], false, "\x7b\x7d", "text/plain"⟩],
        0 + 1⟩) :=
  c8_empty_drive_publishes_empty_object "dest" ⟨[], 0⟩ rfl

/-- C9: JSON-deserializing the text the publisher serializes and uploads
reproduces a mapping equal to the in-memory FolderMap — same key set, and
for each key the same name and parent values, null round-tripping to
null. -/
theorem c9_published_text_roundtrips (m : FolderMap) :
    jsonLoads (jsonDumps m) = some m :=
  jsonLoads_jsonDumps m

end GDriveMap
